import Mathlib

/-!
Shallow embedding of the Raja-Mantri-Chor-Sipahi backend (src/app.py) and a
verification of its specification claims.

Python dicts are modelled as insertion-ordered association lists
(`List (String × β)`); `dget` is dict lookup (`d.get(k)` when the caller
handles `Option`, `d[k]` when a missing key is a KeyError) and `dset` is dict
assignment `d[k] = v` (update the existing entry in place, else append).
Mutating endpoints return the resulting state together with an
`Except Err _` outcome; an error result carries the state as the raised
exception left it, so partial mutation before a failure is observable.
The randomness of `random.shuffle` is modelled by passing the shuffled role
list as a parameter constrained to be a permutation of the literal role list.
-/

/-- Failure outcomes of the endpoints. Each constructor corresponds to an
error response in src/app.py: roomNotFound is the string beginning with R
followed by oom not found (404), roomFull is the Room full message (400),
noActiveRound is the No active round message of guess_chor (400), notMantri
is the Only Mantri can guess message (403), noRound is the No round message
of the result endpoint (400); keyError and indexError model the Python
KeyError and IndexError exceptions. -/
inductive Err where
  | roomNotFound
  | roomFull
  | noActiveRound
  | notMantri
  | noRound
  | keyError
  | indexError
deriving DecidableEq

/-- A roster entry: the dict with id and name built in create_room / join_room. -/
structure Player where
  id : String
  name : String
deriving DecidableEq

/-- The round dict built by assign_roles: roles and points keyed by player id,
plus the completed flag and the recorded guess outcome. -/
structure Round where
  roles : List (String × String)
  points : List (String × Int)
  completed : Bool
  guess : Option Bool
deriving DecidableEq

/-- A room dict: roster, optional round, cumulative scores. -/
structure Room where
  players : List Player
  round : Option Round
  scores : List (String × Int)
deriving DecidableEq

/-- The process-wide rooms dict. -/
abbrev Registry := List (String × Room)

/-- Python dict lookup: the value at the first matching key, if any. -/
def dget {β : Type} (k : String) : List (String × β) → Option β
  | [] => none
  | (k', v) :: rest => if k' = k then some v else dget k rest

/-- Python dict assignment d[k] = v: replace the value at the first matching
key in place, else append a new entry. -/
def dset {β : Type} (d : List (String × β)) (k : String) (v : β) : List (String × β) :=
  match d with
  | [] => [(k, v)]
  | (k', v') :: rest => if k' = k then (k, v) :: rest else (k', v') :: dset rest k v

/-- MAX_PLAYERS constant of src/app.py. -/
def MAX_PLAYERS : Nat := 4

/-- DEFAULT_POINTS dict of src/app.py. -/
def DEFAULT_POINTS : List (String × Int) :=
  [("Raja", 1000), ("Mantri", 800), ("Sipahi", 500), ("Chor", 0)]

/-- The literal role list of assign_roles before shuffling. -/
def baseRoles : List String := ["Raja", "Mantri", "Chor", "Sipahi"]

/-- Loop body of assign_roles: for each (player, role) pair of
zip(players, roles), set role_map[player id] = role and
points[player id] = DEFAULT_POINTS[role]; a role absent from DEFAULT_POINTS
would raise KeyError. -/
def buildMaps : List (Player × String) → List (String × String) → List (String × Int) →
    Except Err (List (String × String) × List (String × Int))
  | [], role_map, points => .ok (role_map, points)
  | pr :: rest, role_map, points =>
    match dget pr.2 DEFAULT_POINTS with
    | none => .error Err.keyError
    | some v => buildMaps rest (dset role_map pr.1.id pr.2) (dset points pr.1.id v)

/-- assign_roles (src/app.py lines 22-38). The shuffled parameter stands for
the role list after random.shuffle. -/
def assign_roles (room : Room) (shuffled : List String) : Except Err Room :=
  match buildMaps (room.players.zip shuffled) [] [] with
  | .error e => .error e
  | .ok maps =>
      .ok { room with
            round := some { roles := maps.1, points := maps.2, completed := false, guess := none } }

/-- create_room (src/app.py lines 47-62): install a fresh room with the
founding player, no round, and a zeroed score entry. -/
def create_room (rooms : Registry) (room_id player_id name : String) : Registry :=
  dset rooms room_id
    { players := [{ id := player_id, name := name }], round := none,
      scores := [(player_id, 0)] }

/-- Body of join_room after the room lookup (src/app.py lines 73-83): reject a
full room, else append the new player, zero its score, and assign roles when
the roster reaches MAX_PLAYERS. Returns the room as left by the call. -/
def joinRoom (room : Room) (player_id name : String) (shuffled : List String) :
    Room × Except Err String :=
  if MAX_PLAYERS ≤ room.players.length then (room, .error Err.roomFull)
  else
    let room1 : Room := { room with
      players := room.players ++ [{ id := player_id, name := name }],
      scores := dset room.scores player_id 0 }
    if room1.players.length = MAX_PLAYERS then
      match assign_roles room1 shuffled with
      | .ok room2 => (room2, .ok player_id)
      | .error e => (room1, .error e)
    else (room1, .ok player_id)

/-- join_room endpoint (src/app.py lines 66-83). -/
def join_room (rooms : Registry) (room_id player_id name : String) (shuffled : List String) :
    Registry × Except Err String :=
  match dget room_id rooms with
  | none => (rooms, .error Err.roomNotFound)
  | some room =>
      (dset rooms room_id (joinRoom room player_id name shuffled).1,
       (joinRoom room player_id name shuffled).2)

/-- list_players endpoint (src/app.py lines 87-92). -/
def list_players (rooms : Registry) (room_id : String) : Except Err (List Player) :=
  match dget room_id rooms with
  | none => .error Err.roomNotFound
  | some room => .ok room.players

/-- my_role endpoint (src/app.py lines 96-102): never an error response; the
role is None when the room is unknown, the round absent, or the player id not
in the role map. -/
def my_role (rooms : Registry) (room_id player_id : String) : Option String :=
  match dget room_id rooms with
  | none => none
  | some room =>
    match room.round with
    | none => none
    | some rd => dget player_id rd.roles

/-- Lines 125-128 of guess_chor: find the Chor (IndexError on the empty
comprehension result), read the Mantri round points (KeyError if absent), zero
them, and add the stolen amount to the Chor round points (KeyError if absent,
after the zeroing already happened). Returns the points as left by the code
together with the raised exception, if any. -/
def transferPoints (points : List (String × Int)) (roles : List (String × String))
    (mantri_id : String) : List (String × Int) × Option Err :=
  match (roles.filter (fun pr => pr.2 == "Chor")).map Prod.fst with
  | [] => (points, some Err.indexError)
  | chor_id :: _ =>
    match dget mantri_id points with
    | none => (points, some Err.keyError)
    | some stolen =>
      let pts1 := dset points mantri_id 0
      match dget chor_id pts1 with
      | none => (pts1, some Err.keyError)
      | some cp => (dset pts1 chor_id (cp + stolen), none)

/-- Lines 131-132 of guess_chor: for each (pid, pts) entry of the round points,
scores[pid] += pts; a KeyError leaves the increments already made. -/
def addScoresLoop (scores : List (String × Int)) : List (String × Int) →
    List (String × Int) × Option Err
  | [] => (scores, none)
  | pr :: rest =>
    match dget pr.1 scores with
    | none => (scores, some Err.keyError)
    | some old => addScoresLoop (dset scores pr.1 (old + pr.2)) rest

/-- Body of guess_chor after the room lookup (src/app.py lines 112-137):
require an active round, require the caller to hold the Mantri role, read the
role of the guessed id (KeyError when absent), transfer points on an incorrect
guess, accumulate all round points into cumulative scores, and mark the round
completed with the recorded guess outcome. The completed flag is never
checked. -/
def guessRoom (room : Room) (mantri_id guessed_id : String) : Room × Except Err Bool :=
  match room.round with
  | none => (room, .error Err.noActiveRound)
  | some rd =>
    if dget mantri_id rd.roles ≠ some "Mantri" then (room, .error Err.notMantri)
    else
      match dget guessed_id rd.roles with
      | none => (room, .error Err.keyError)
      | some g =>
        let correct := g == "Chor"
        let trans := if correct then (rd.points, none) else transferPoints rd.points rd.roles mantri_id
        match trans with
        | (pts, some e) => ({ room with round := some { rd with points := pts } }, .error e)
        | (pts, none) =>
          match addScoresLoop room.scores pts with
          | (sc, some e) =>
              ({ room with round := some { rd with points := pts }, scores := sc }, .error e)
          | (sc, none) =>
              ({ room with
                 round := some { rd with points := pts, completed := true, guess := some correct },
                 scores := sc }, .ok correct)

/-- guess_chor endpoint (src/app.py lines 105-137). A missing room reports the
same No active round error as a missing round. -/
def guess_chor (rooms : Registry) (room_id mantri_id guessed_id : String) :
    Registry × Except Err Bool :=
  match dget room_id rooms with
  | none => (rooms, .error Err.noActiveRound)
  | some room =>
      (dset rooms room_id (guessRoom room mantri_id guessed_id).1,
       (guessRoom room mantri_id guessed_id).2)

/-- result endpoint (src/app.py lines 140-155): per player, the name, the
optional role, and the cumulative score (KeyError when a player has no score
entry). A missing room reports the same No round error as a missing round. -/
def resultEndpoint (rooms : Registry) (room_id : String) :
    Except Err (List (String × Option String × Int)) :=
  match dget room_id rooms with
  | none => .error Err.noRound
  | some room =>
    match room.round with
    | none => .error Err.noRound
    | some rd =>
      room.players.mapM (fun p =>
        match dget p.id room.scores with
        | none => (Except.error Err.keyError : Except Err (String × Option String × Int))
        | some s => Except.ok (p.name, dget p.id rd.roles, s))

/-- Stable descending insertion of one (name, score) entry: the entry goes in
front of the first element whose score is not larger, so it precedes every
equal-score element inserted from further right. -/
def insertDesc (a : String × Int) : List (String × Int) → List (String × Int)
  | [] => [a]
  | b :: l => if b.2 ≤ a.2 then a :: b :: l else b :: insertDesc a l

/-- Python board.sort with a score key and reverse set: a stable sort,
descending by score. Modelled as stable insertion sort, which agrees with
every stable sort for a fixed key. -/
def sortDesc : List (String × Int) → List (String × Int)
  | [] => []
  | a :: l => insertDesc a (sortDesc l)

/-- leaderboard endpoint (src/app.py lines 159-172): one (name, score) entry
per roster player (KeyError when a player has no score entry), sorted by score
descending with the stable sort. -/
def leaderboard (rooms : Registry) (room_id : String) : Except Err (List (String × Int)) :=
  match dget room_id rooms with
  | none => .error Err.roomNotFound
  | some room =>
    match room.players.mapM (fun p =>
        match dget p.id room.scores with
        | none => (Except.error Err.keyError : Except Err (String × Int))
        | some s => Except.ok (p.name, s)) with
    | .error e => .error e
    | .ok board => .ok (sortDesc board)

/-- Rooms reachable through the endpoints: created by create_room, grown by
join_room with a fresh player id (the spec treats generated ids as
collision-free) and a role list that is a permutation of the literal role
list, and transformed by guess_chor with arbitrary caller-supplied ids. -/
inductive Reachable : Room → Prop where
  | created (player_id name : String) :
      Reachable { players := [{ id := player_id, name := name }], round := none,
                  scores := [(player_id, 0)] }
  | joined {room : Room} (player_id name : String) (shuffled : List String) :
      Reachable room →
      player_id ∉ room.players.map Player.id →
      shuffled.Perm baseRoles →
      Reachable (joinRoom room player_id name shuffled).1
  | guessed {room : Room} (mantri_id guessed_id : String) :
      Reachable room →
      Reachable (guessRoom room mantri_id guessed_id).1

/-- The round that assign_roles installs when every zipped role is found in
DEFAULT_POINTS: role and point entries in roster order. -/
def assignedRound (players : List Player) (shuffled : List String) : Round :=
  { roles := (players.zip shuffled).map (fun pr => (pr.1.id, pr.2)),
    points := (players.zip shuffled).map
      (fun pr => (pr.1.id, (dget pr.2 DEFAULT_POINTS).getD 0)),
    completed := false, guess := none }

/-- Well-formedness of an assigned round relative to a roster: full roster,
role keys are exactly the roster ids, role values are a permutation of the
four roles, point keys equal role keys, points sum to 2300, and as long as
the round is not completed each player still holds the initial points of its
role. -/
def RoundWF (players : List Player) (rd : Round) : Prop :=
  players.length = 4 ∧
  rd.roles.map Prod.fst = players.map Player.id ∧
  (rd.roles.map Prod.snd).Perm baseRoles ∧
  rd.points.map Prod.fst = rd.roles.map Prod.fst ∧
  (rd.points.map Prod.snd).sum = 2300 ∧
  (rd.completed = false → ∀ pr ∈ rd.roles, dget pr.1 rd.points = dget pr.2 DEFAULT_POINTS)

/-- Well-formedness of a room: at most four players with distinct ids, score
keys exactly the roster ids in roster order, a well-formed round when one is
present, and no round while the roster is short. -/
def RoomWF (room : Room) : Prop :=
  room.players.length ≤ 4 ∧
  (room.players.map Player.id).Nodup ∧
  room.scores.map Prod.fst = room.players.map Player.id ∧
  (∀ rd, room.round = some rd → RoundWF room.players rd) ∧
  (room.round = none → room.players.length < 4)

/-- The round as guess_chor leaves it on a successful call: new points, the
completed flag set, and the guess outcome recorded. -/
def completedRound (rd : Round) (pts2 : List (String × Int)) (correct : Bool) : Round :=
  { rd with points := pts2, completed := true, guess := some correct }

/-- A concrete room freshly created with founder p1. -/
def sampleRoom0 : Room :=
  { players := [{ id := "p1", name := "A" }], round := none, scores := [("p1", 0)] }

/-- The sample room after a second player joined. -/
def sampleRoom1 : Room := (joinRoom sampleRoom0 "p2" "B" baseRoles).1

/-- The sample room after a third player joined. -/
def sampleRoom2 : Room := (joinRoom sampleRoom1 "p3" "C" baseRoles).1

/-- The sample room after the fourth player joined: roles are assigned with
the identity permutation, so p1 is Raja, p2 is Mantri, p3 is Chor and p4 is
Sipahi. -/
def sampleRoom4 : Room := (joinRoom sampleRoom2 "p4" "D" baseRoles).1

/-- The sample room after the Mantri p2 wrongly accused p1: the round is
completed, the Mantri round points were transferred to the Chor p3, and all
round points were accumulated into the cumulative scores. -/
def sampleRoomDone : Room := (guessRoom sampleRoom4 "p2" "p1").1

/-- A placeholder round used only as the default of an Option read. -/
def emptyRound : Round := { roles := [], points := [], completed := false, guess := none }

/-- The concrete round of sampleRoom4. -/
def sampleRound4 : Round := sampleRoom4.round.getD emptyRound

/-- The concrete round of sampleRoomDone. -/
def sampleRoundDone : Round := sampleRoomDone.round.getD emptyRound

/-- A registry holding the completed sample room under id r1. -/
def sampleRegistry : Registry := [("r1", sampleRoomDone)]

/-- A registry holding the filled but unresolved sample room under id r1. -/
def sampleRegistry4 : Registry := [("r1", sampleRoom4)]

/-! Dictionary lemmas. -/

theorem dget_dset_self {β : Type} (d : List (String × β)) (k : String) (v : β) :
    dget k (dset d k v) = some v := by
  induction d with
  | nil => simp [dget, dset]
  | cons kv rest ih =>
    obtain ⟨a, b⟩ := kv
    by_cases h : a = k
    · simp [dset, h, dget]
    · simp [dset, h, dget, ih]

theorem dget_dset_ne {β : Type} (d : List (String × β)) (k k' : String) (v : β)
    (h : k' ≠ k) : dget k' (dset d k v) = dget k' d := by
  have hk : ¬ (k = k') := fun he => h he.symm
  induction d with
  | nil => simp [dget, dset, hk]
  | cons kv rest ih =>
    obtain ⟨a, b⟩ := kv
    by_cases ha : a = k
    · subst ha
      simp [dset, dget, hk]
    · by_cases ha' : a = k'
      · simp [dset, ha, dget, ha', h]
      · simp [dset, ha, dget, ha', ih]

theorem dset_keys_of_mem {β : Type} (d : List (String × β)) (k : String) (v : β)
    (h : k ∈ d.map Prod.fst) : (dset d k v).map Prod.fst = d.map Prod.fst := by
  induction d with
  | nil => simp at h
  | cons kv rest ih =>
    obtain ⟨a, b⟩ := kv
    by_cases ha : a = k
    · simp [dset, ha]
    · have hmem : k ∈ rest.map Prod.fst := by
        rcases List.mem_cons.mp h with he | hm
        · exact absurd he.symm ha
        · exact hm
      simp [dset, ha, ih hmem]

theorem dset_of_not_mem {β : Type} (d : List (String × β)) (k : String) (v : β)
    (h : k ∉ d.map Prod.fst) : dset d k v = d ++ [(k, v)] := by
  induction d with
  | nil => simp [dset]
  | cons kv rest ih =>
    obtain ⟨a, b⟩ := kv
    simp only [List.map_cons, List.mem_cons, not_or] at h
    have ha : ¬ (a = k) := fun he => h.1 he.symm
    simp [dset, ha, ih h.2]

theorem dset_eq_self {β : Type} (d : List (String × β)) (k : String) (v : β)
    (h : dget k d = some v) : dset d k v = d := by
  induction d with
  | nil => simp [dget] at h
  | cons kv rest ih =>
    obtain ⟨a, b⟩ := kv
    by_cases ha : a = k
    · rw [dget, if_pos ha] at h
      have hb : b = v := by injection h
      simp [dset, ha, hb]
    · rw [dget, if_neg ha] at h
      simp [dset, ha, ih h]

theorem sum_dset (d : List (String × Int)) (k : String) (v old : Int)
    (h : dget k d = some old) :
    ((dset d k v).map Prod.snd).sum = (d.map Prod.snd).sum + v - old := by
  induction d with
  | nil => simp [dget] at h
  | cons kv rest ih =>
    obtain ⟨a, b⟩ := kv
    by_cases ha : a = k
    · rw [dget, if_pos ha] at h
      have hb : b = old := by injection h
      rw [show dset ((a, b) :: rest) k v = (k, v) :: rest by simp [dset, ha]]
      simp only [List.map_cons, List.sum_cons, hb]
      ring
    · rw [dget, if_neg ha] at h
      rw [show dset ((a, b) :: rest) k v = (a, b) :: dset rest k v by simp [dset, ha]]
      simp only [List.map_cons, List.sum_cons, ih h]
      ring

theorem dget_isSome_iff_mem {β : Type} (l : List (String × β)) (k : String) :
    (dget k l).isSome ↔ k ∈ l.map Prod.fst := by
  induction l with
  | nil => simp [dget]
  | cons kv rest ih =>
    obtain ⟨a, b⟩ := kv
    by_cases ha : a = k
    · simp [dget, ha]
    · have hne : ¬ (k = a) := fun he => ha he.symm
      simp [dget, ha, ih, hne]

theorem dget_none_iff_not_mem {β : Type} (l : List (String × β)) (k : String) :
    dget k l = none ↔ k ∉ l.map Prod.fst := by
  rw [← dget_isSome_iff_mem]
  cases dget k l <;> simp

theorem dget_mem {β : Type} {l : List (String × β)} {k : String} {v : β}
    (h : dget k l = some v) : (k, v) ∈ l := by
  induction l with
  | nil => simp [dget] at h
  | cons kv rest ih =>
    obtain ⟨a, b⟩ := kv
    by_cases ha : a = k
    · rw [dget, if_pos ha] at h
      have hb : b = v := by injection h
      rw [← ha, ← hb]
      exact List.mem_cons_self _ _
    · rw [dget, if_neg ha] at h
      exact List.mem_cons_of_mem _ (ih h)

theorem dget_eq_of_mem {β : Type} {l : List (String × β)} {k : String} {v : β}
    (hnd : (l.map Prod.fst).Nodup) (hm : (k, v) ∈ l) : dget k l = some v := by
  induction l with
  | nil => simp at hm
  | cons kv rest ih =>
    obtain ⟨a, b⟩ := kv
    simp only [List.map_cons, List.nodup_cons] at hnd
    rcases List.mem_cons.mp hm with he | hm'
    · have ha : a = k := (congrArg Prod.fst he).symm
      have hb : b = v := (congrArg Prod.snd he).symm
      simp [dget, ha, hb]
    · have ha : ¬ (a = k) := by
        intro he
        exact hnd.1 (he ▸ (List.mem_map.mpr ⟨(k, v), hm', rfl⟩))
      simp [dget, ha, ih hnd.2 hm']

theorem dget_append_of_none {β : Type} {d : List (String × β)} {k : String}
    (h : dget k d = none) (e : List (String × β)) : dget k (d ++ e) = dget k e := by
  induction d with
  | nil => simp
  | cons kv rest ih =>
    obtain ⟨a, b⟩ := kv
    by_cases ha : a = k
    · rw [dget, if_pos ha] at h
      exact absurd h (by simp)
    · rw [dget, if_neg ha] at h
      simp [dget, ha, ih h]

theorem dget_append_of_some {β : Type} {d : List (String × β)} {k : String} {v : β}
    (h : dget k d = some v) (e : List (String × β)) : dget k (d ++ e) = some v := by
  induction d with
  | nil => simp [dget] at h
  | cons kv rest ih =>
    obtain ⟨a, b⟩ := kv
    by_cases ha : a = k
    · rw [dget, if_pos ha] at h
      simp [dget, ha, h]
    · rw [dget, if_neg ha] at h
      simp [dget, ha, ih h]

/-! Characterization of assign_roles. -/

theorem buildMaps_eq (zipped : List (Player × String))
    (rm : List (String × String)) (pm : List (String × Int))
    (h : ∀ pr ∈ zipped, (dget pr.2 DEFAULT_POINTS).isSome) :
    buildMaps zipped rm pm = .ok
      (zipped.foldl (fun m pr => dset m pr.1.id pr.2) rm,
       zipped.foldl (fun m pr => dset m pr.1.id ((dget pr.2 DEFAULT_POINTS).getD 0)) pm) := by
  induction zipped generalizing rm pm with
  | nil => rfl
  | cons pr rest ih =>
    obtain ⟨v, hv⟩ := Option.isSome_iff_exists.mp (h pr (List.mem_cons_self _ _))
    simp only [buildMaps, hv, List.foldl_cons]
    rw [ih _ _ (fun q hq => h q (List.mem_cons_of_mem _ hq))]
    simp

theorem foldl_dset_fresh {β : Type} (f : Player × String → β) :
    ∀ (zipped : List (Player × String)) (m : List (String × β)),
      (∀ pr ∈ zipped, pr.1.id ∉ m.map Prod.fst) →
      (zipped.map (fun pr => pr.1.id)).Nodup →
      zipped.foldl (fun m pr => dset m pr.1.id (f pr)) m
        = m ++ zipped.map (fun pr => (pr.1.id, f pr))
  | [], m, _, _ => by simp
  | pr :: rest, m, hdisj, hnd => by
    simp only [List.foldl_cons, List.map_cons]
    rw [dset_of_not_mem m pr.1.id (f pr) (hdisj pr (List.mem_cons_self _ _))]
    have hnd2 : (rest.map (fun q => q.1.id)).Nodup := (List.nodup_cons.mp hnd).2
    have hhead : pr.1.id ∉ rest.map (fun q => q.1.id) := (List.nodup_cons.mp hnd).1
    have hdisj2 : ∀ q ∈ rest, q.1.id ∉ (m ++ [(pr.1.id, f pr)]).map Prod.fst := by
      intro q hq
      simp only [List.map_append, List.mem_append, List.map_cons, List.map_nil,
        List.mem_singleton, not_or]
      constructor
      · exact hdisj q (List.mem_cons_of_mem _ hq)
      · intro hmem
        exact hhead (hmem ▸ List.mem_map.mpr ⟨q, hq, rfl⟩)
    rw [foldl_dset_fresh f rest (m ++ [(pr.1.id, f pr)]) hdisj2 hnd2]
    simp

theorem zip_map_fst {γ : Type} (f : Player → γ) :
    ∀ (ps : List Player) (ss : List String), ps.length = ss.length →
      (ps.zip ss).map (fun pr => f pr.1) = ps.map f
  | [], [], _ => rfl
  | [], _ :: _, h => by simp at h
  | _ :: _, [], h => by simp at h
  | p :: ps, s :: ss, h => by
    simp only [List.zip_cons_cons, List.map_cons]
    rw [zip_map_fst f ps ss (by simpa using h)]

theorem zip_map_snd {γ : Type} (f : String → γ) :
    ∀ (ps : List Player) (ss : List String), ps.length = ss.length →
      (ps.zip ss).map (fun pr => f pr.2) = ss.map f
  | [], [], _ => rfl
  | [], _ :: _, h => by simp at h
  | _ :: _, [], h => by simp at h
  | p :: ps, s :: ss, h => by
    simp only [List.zip_cons_cons, List.map_cons]
    rw [zip_map_snd f ps ss (by simpa using h)]

theorem assign_roles_ok (room : Room) (shuffled : List String)
    (hlen : room.players.length = shuffled.length)
    (hnd : (room.players.map Player.id).Nodup)
    (hall : ∀ r ∈ shuffled, (dget r DEFAULT_POINTS).isSome) :
    assign_roles room shuffled =
      Except.ok { room with round := some (assignedRound room.players shuffled) } := by
  have hzsnd : ∀ pr ∈ room.players.zip shuffled, (dget pr.2 DEFAULT_POINTS).isSome :=
    fun pr hpr => hall pr.2 (List.of_mem_zip hpr).2
  have hids : (room.players.zip shuffled).map (fun pr => pr.1.id)
      = room.players.map Player.id := zip_map_fst Player.id _ _ hlen
  have hznd : ((room.players.zip shuffled).map (fun pr => pr.1.id)).Nodup := by
    rw [hids]
    exact hnd
  unfold assign_roles
  rw [buildMaps_eq _ _ _ hzsnd,
    foldl_dset_fresh (fun pr => pr.2) _ [] (by simp) hznd,
    foldl_dset_fresh (fun pr => (dget pr.2 DEFAULT_POINTS).getD 0) _ [] (by simp) hznd]
  simp [assignedRound]

theorem mem_baseRoles_isSome : ∀ r ∈ baseRoles, (dget r DEFAULT_POINTS).isSome := by
  decide

theorem assignedRound_roles_keys (players : List Player) (shuffled : List String)
    (hlen : players.length = shuffled.length) :
    (assignedRound players shuffled).roles.map Prod.fst = players.map Player.id := by
  unfold assignedRound
  simp only [List.map_map]
  exact zip_map_fst Player.id _ _ hlen

theorem assignedRound_roles_values (players : List Player) (shuffled : List String)
    (hlen : players.length = shuffled.length) :
    (assignedRound players shuffled).roles.map Prod.snd = shuffled := by
  unfold assignedRound
  simp only [List.map_map]
  have h := zip_map_snd (fun s => s) players shuffled hlen
  simpa using h

theorem assignedRound_points_keys (players : List Player) (shuffled : List String)
    (hlen : players.length = shuffled.length) :
    (assignedRound players shuffled).points.map Prod.fst = players.map Player.id := by
  unfold assignedRound
  simp only [List.map_map]
  exact zip_map_fst Player.id _ _ hlen

theorem assignedRound_points_values (players : List Player) (shuffled : List String)
    (hlen : players.length = shuffled.length) :
    (assignedRound players shuffled).points.map Prod.snd
      = shuffled.map (fun r => (dget r DEFAULT_POINTS).getD 0) := by
  unfold assignedRound
  simp only [List.map_map]
  exact zip_map_snd (fun r => (dget r DEFAULT_POINTS).getD 0) players shuffled hlen

theorem assignedRound_wf (players : List Player) (shuffled : List String)
    (hlen4 : players.length = 4) (hnd : (players.map Player.id).Nodup)
    (hperm : shuffled.Perm baseRoles) :
    RoundWF players (assignedRound players shuffled) := by
  have hlen : players.length = shuffled.length := by
    rw [hlen4, hperm.length_eq]
    rfl
  refine ⟨hlen4, assignedRound_roles_keys _ _ hlen, ?_, ?_, ?_, ?_⟩
  · rw [assignedRound_roles_values _ _ hlen]
    exact hperm
  · rw [assignedRound_points_keys _ _ hlen, assignedRound_roles_keys _ _ hlen]
  · rw [assignedRound_points_values _ _ hlen,
      List.Perm.sum_eq (hperm.map (fun r => (dget r DEFAULT_POINTS).getD 0))]
    decide
  · intro _ pr hpr
    unfold assignedRound at hpr
    obtain ⟨q, hq, hqe⟩ := List.mem_map.mp hpr
    have hkeys : (assignedRound players shuffled).points.map Prod.fst = players.map Player.id :=
      assignedRound_points_keys _ _ hlen
    have hptnd : ((assignedRound players shuffled).points.map Prod.fst).Nodup := by
      rw [hkeys]
      exact hnd
    have hmemp : (q.1.id, (dget q.2 DEFAULT_POINTS).getD 0)
        ∈ (assignedRound players shuffled).points := by
      unfold assignedRound
      exact List.mem_map.mpr ⟨q, hq, rfl⟩
    have hget := dget_eq_of_mem hptnd hmemp
    have hsome : (dget q.2 DEFAULT_POINTS).isSome :=
      mem_baseRoles_isSome q.2 (hperm.mem_iff.mp (List.of_mem_zip hq).2)
    obtain ⟨v, hv⟩ := Option.isSome_iff_exists.mp hsome
    rw [← hqe]
    simp only
    rw [hget, hv]
    simp

theorem createRoom_wf (player_id name : String) :
    RoomWF { players := [{ id := player_id, name := name }], round := none,
             scores := [(player_id, 0)] } := by
  refine ⟨by simp, by simp, by simp, ?_, by simp⟩
  intro rd h
  simp at h

theorem joinRoom_full (room : Room) (h : MAX_PLAYERS ≤ room.players.length)
    (player_id name : String) (shuffled : List String) :
    joinRoom room player_id name shuffled = (room, .error Err.roomFull) := by
  unfold joinRoom
  rw [if_pos h]

theorem joinRoom_belowCapacity (room : Room) (player_id name : String) (shuffled : List String)
    (hlt : room.players.length + 1 < 4) :
    joinRoom room player_id name shuffled =
      ({ room with players := room.players ++ [Player.mk player_id name],
                   scores := dset room.scores player_id 0 }, .ok player_id) := by
  have hfull : ¬ (MAX_PLAYERS ≤ room.players.length) := by
    have : ¬ (4 ≤ room.players.length) := by omega
    exact this
  have h4 : ¬ (room.players.length + (0 + 1) = MAX_PLAYERS) := by
    have : ¬ (room.players.length + (0 + 1) = 4) := by omega
    exact this
  unfold joinRoom
  rw [if_neg hfull]
  simp only [List.length_append, List.length_cons, List.length_nil]
  rw [if_neg h4]

theorem joinRoom_fill (room : Room) (player_id name : String) (shuffled : List String)
    (h3 : room.players.length = 3)
    (hnd1 : ((room.players ++ [Player.mk player_id name]).map Player.id).Nodup)
    (hperm : shuffled.Perm baseRoles) :
    joinRoom room player_id name shuffled =
      ({ players := room.players ++ [Player.mk player_id name],
         round := some (assignedRound (room.players ++ [Player.mk player_id name]) shuffled),
         scores := dset room.scores player_id 0 }, .ok player_id) := by
  have hfull : ¬ (MAX_PLAYERS ≤ room.players.length) := by
    have : ¬ (4 ≤ room.players.length) := by omega
    exact this
  have h4 : room.players.length + (0 + 1) = MAX_PLAYERS := by
    have : room.players.length + (0 + 1) = 4 := by omega
    exact this
  have hlen1 : (room.players ++ [Player.mk player_id name]).length = 4 := by
    simp only [List.length_append, List.length_cons, List.length_nil]
    omega
  have hassign := assign_roles_ok
    { room with players := room.players ++ [Player.mk player_id name],
                scores := dset room.scores player_id 0 }
    shuffled
    (by
      show (room.players ++ [Player.mk player_id name]).length = shuffled.length
      rw [hlen1, hperm.length_eq]
      rfl)
    hnd1
    (fun r hr => mem_baseRoles_isSome r (hperm.mem_iff.mp hr))
  unfold joinRoom
  rw [if_neg hfull]
  simp only [List.length_append, List.length_cons, List.length_nil]
  rw [if_pos h4, hassign]

theorem joinRoom_wf (room : Room) (player_id name : String) (shuffled : List String)
    (hwf : RoomWF room) (hfresh : player_id ∉ room.players.map Player.id)
    (hperm : shuffled.Perm baseRoles) :
    RoomWF (joinRoom room player_id name shuffled).1 := by
  obtain ⟨hlen, hnd, hsc, hrd, hnone⟩ := hwf
  by_cases hfull : MAX_PLAYERS ≤ room.players.length
  · rw [joinRoom_full room hfull]
    exact ⟨hlen, hnd, hsc, hrd, hnone⟩
  · have hlt : room.players.length < 4 := by
      have : ¬ (4 ≤ room.players.length) := hfull
      omega
    have hfresh2 : player_id ∉ room.scores.map Prod.fst := by
      rw [hsc]
      exact hfresh
    have hids1 : (room.players ++ [Player.mk player_id name]).map Player.id
        = room.players.map Player.id ++ [player_id] := by
      simp
    have hnd1 : ((room.players ++ [Player.mk player_id name]).map Player.id).Nodup := by
      rw [hids1]
      simp only [List.nodup_append, List.nodup_cons, List.not_mem_nil, not_false_iff,
        List.nodup_nil, true_and, and_true]
      constructor
      · exact hnd
      · intro a ha
        simp only [List.mem_singleton]
        intro he
        exact hfresh (he ▸ ha)
    have hsc1 : (dset room.scores player_id 0).map Prod.fst
        = (room.players ++ [Player.mk player_id name]).map Player.id := by
      rw [dset_of_not_mem _ _ _ hfresh2, hids1]
      simp [hsc]
    by_cases h3 : room.players.length = 3
    · rw [joinRoom_fill room player_id name shuffled h3 hnd1 hperm]
      have hlen1 : (room.players ++ [Player.mk player_id name]).length = 4 := by
        simp only [List.length_append, List.length_cons, List.length_nil]
        omega
      refine ⟨by rw [hlen1], hnd1, hsc1, ?_, ?_⟩
      · intro rd hrdeq
        simp only [Option.some.injEq] at hrdeq
        rw [← hrdeq]
        exact assignedRound_wf _ _ hlen1 hnd1 hperm
      · intro hcontr
        simp at hcontr
    · have hlt1 : room.players.length + 1 < 4 := by omega
      rw [joinRoom_belowCapacity room player_id name shuffled hlt1]
      have hroundnone : room.round = none := by
        cases hre : room.round with
        | none => rfl
        | some rd =>
          have := (hrd rd hre).1
          omega
      refine ⟨?_, hnd1, hsc1, ?_, ?_⟩
      · simp only [List.length_append, List.length_cons, List.length_nil]
        omega
      · intro rd hrdeq
        simp only [hroundnone] at hrdeq
        exact absurd hrdeq (by simp)
      · intro _
        simp only [List.length_append, List.length_cons, List.length_nil]
        omega

theorem guessRoom_eq (room : Room) (rd : Round) (m g g_role : String)
    (hrd : room.round = some rd)
    (hm : dget m rd.roles = some "Mantri")
    (hg : dget g rd.roles = some g_role)
    (pts2 : List (String × Int))
    (htrans : (if (g_role == "Chor") = true then (rd.points, (none : Option Err))
               else transferPoints rd.points rd.roles m) = (pts2, none))
    (sc2 : List (String × Int))
    (hadd : addScoresLoop room.scores pts2 = (sc2, none)) :
    guessRoom room m g =
      ({ room with round := some (completedRound rd pts2 (g_role == "Chor")),
                   scores := sc2 }, .ok (g_role == "Chor")) := by
  simp only [guessRoom, hrd, hm, hg, htrans, hadd, completedRound, ne_eq,
    not_true_eq_false, if_false, Option.some.injEq, reduceCtorEq]

theorem guessRoom_noRound (room : Room) (h : room.round = none) (m g : String) :
    guessRoom room m g = (room, .error Err.noActiveRound) := by
  simp only [guessRoom, h]

theorem guessRoom_notMantri (room : Room) (rd : Round) (h : room.round = some rd)
    (m g : String) (hm : dget m rd.roles ≠ some "Mantri") :
    guessRoom room m g = (room, .error Err.notMantri) := by
  simp only [guessRoom, h]
  rw [if_pos hm]

theorem guessRoom_keyError (room : Room) (rd : Round) (h : room.round = some rd)
    (m g : String) (hm : dget m rd.roles = some "Mantri") (hg : dget g rd.roles = none) :
    guessRoom room m g = (room, .error Err.keyError) := by
  simp only [guessRoom, h, hm, hg, ne_eq, not_true_eq_false, if_false]

theorem filter_chor_singleton : ∀ (roles : List (String × String)),
    (roles.map Prod.snd).Nodup → "Chor" ∈ roles.map Prod.snd →
    ∃ c, roles.filter (fun pr => pr.2 == "Chor") = [(c, "Chor")]
  | [], _, hm => by simp at hm
  | (a, b) :: rest, hnd, hm => by
    simp only [List.map_cons, List.nodup_cons] at hnd
    by_cases hb : b = "Chor"
    · subst hb
      have hnone : rest.filter (fun pr => pr.2 == "Chor") = [] := by
        rw [List.filter_eq_nil_iff]
        intro pr hpr
        simp only [beq_iff_eq]
        intro he
        exact hnd.1 (he ▸ List.mem_map.mpr ⟨pr, hpr, rfl⟩)
      exact ⟨a, by simp [List.filter_cons, hnone]⟩
    · have hm2 : "Chor" ∈ rest.map Prod.snd := by
        rcases List.mem_cons.mp hm with he | hh
        · exact absurd he.symm hb
        · exact hh
      obtain ⟨c, hc⟩ := filter_chor_singleton rest hnd.2 hm2
      refine ⟨c, ?_⟩
      rw [List.filter_cons]
      simp [hb, hc]

theorem addScoresLoop_ok : ∀ (pts scores : List (String × Int)),
    (∀ pr ∈ pts, (dget pr.1 scores).isSome) →
    (pts.map Prod.fst).Nodup →
    (addScoresLoop scores pts).2 = none ∧
    (addScoresLoop scores pts).1.map Prod.fst = scores.map Prod.fst ∧
    (∀ k old, dget k scores = some old →
      dget k (addScoresLoop scores pts).1 = some (old + (dget k pts).getD 0))
  | [], scores, _, _ => by
    refine ⟨rfl, rfl, ?_⟩
    intro k old h
    simp [addScoresLoop, dget, h]
  | (pid, p) :: rest, scores, hsub, hnd => by
    obtain ⟨old0, hold0⟩ := Option.isSome_iff_exists.mp (hsub (pid, p) (List.mem_cons_self _ _))
    have hstep : addScoresLoop scores ((pid, p) :: rest)
        = addScoresLoop (dset scores pid (old0 + p)) rest := by
      simp [addScoresLoop, hold0]
    have hndc : pid ∉ rest.map Prod.fst ∧ (rest.map Prod.fst).Nodup := by
      simpa [List.nodup_cons] using hnd
    have hkeys : (dset scores pid (old0 + p)).map Prod.fst = scores.map Prod.fst :=
      dset_keys_of_mem _ _ _ ((dget_isSome_iff_mem _ _).mp (by rw [hold0]; rfl))
    have hsub2 : ∀ pr ∈ rest, (dget pr.1 (dset scores pid (old0 + p))).isSome := by
      intro pr hpr
      by_cases he : pr.1 = pid
      · rw [he, dget_dset_self]
        rfl
      · rw [dget_dset_ne _ _ _ _ he]
        exact hsub pr (List.mem_cons_of_mem _ hpr)
    obtain ⟨h1, h2, h3⟩ := addScoresLoop_ok rest (dset scores pid (old0 + p)) hsub2 hndc.2
    rw [hstep]
    refine ⟨h1, by rw [h2, hkeys], ?_⟩
    intro k old hk
    by_cases hkp : k = pid
    · subst hkp
      have holdeq : old0 = old := by
        rw [hk] at hold0
        injection hold0 with hinj
        exact hinj.symm
      have hks : dget k (dset scores k (old0 + p)) = some (old0 + p) := dget_dset_self _ _ _
      have hfin := h3 k (old0 + p) hks
      rw [hfin]
      have hrestnone : dget k rest = none := (dget_none_iff_not_mem _ _).mpr hndc.1
      rw [hrestnone, holdeq]
      simp [dget]
    · have hks : dget k (dset scores pid (old0 + p)) = some old := by
        rw [dget_dset_ne _ _ _ _ hkp]
        exact hk
      have hfin := h3 k old hks
      rw [hfin]
      have hskip : dget k ((pid, p) :: rest) = dget k rest := by
        have : ¬ (pid = k) := fun he => hkp he.symm
        simp [dget, this]
      rw [hskip]

theorem transferPoints_ok (points : List (String × Int)) (roles : List (String × String))
    (m c : String) (stolen cp : Int)
    (hfil : roles.filter (fun pr => pr.2 == "Chor") = [(c, "Chor")])
    (hm : dget m points = some stolen)
    (hmc : m ≠ c)
    (hc : dget c points = some cp) :
    transferPoints points roles m = (dset (dset points m 0) c (cp + stolen), none) := by
  have hc1 : dget c (dset points m 0) = some cp := by
    rw [dget_dset_ne _ _ _ _ (Ne.symm hmc)]
    exact hc
  simp only [transferPoints, hfil, List.map_cons, List.map_nil, hm, hc1]

theorem guessRoom_ok (room : Room) (rd : Round) (m g g_role : String)
    (hwf : RoomWF room) (hrd : room.round = some rd)
    (hm : dget m rd.roles = some "Mantri")
    (hg : dget g rd.roles = some g_role) :
    ∃ pts2 sc2,
      guessRoom room m g =
        ({ room with round := some (completedRound rd pts2 (g_role == "Chor")),
                     scores := sc2 }, .ok (g_role == "Chor")) ∧
      pts2.map Prod.fst = rd.points.map Prod.fst ∧
      (pts2.map Prod.snd).sum = (rd.points.map Prod.snd).sum ∧
      sc2.map Prod.fst = room.scores.map Prod.fst ∧
      (∀ k old, dget k room.scores = some old →
        dget k sc2 = some (old + (dget k pts2).getD 0)) ∧
      (g_role = "Chor" → pts2 = rd.points) ∧
      (g_role ≠ "Chor" → ∃ c stolen cp,
        dget c rd.roles = some "Chor" ∧ c ≠ m ∧
        dget m rd.points = some stolen ∧ dget c rd.points = some cp ∧
        pts2 = dset (dset rd.points m 0) c (cp + stolen)) := by
  obtain ⟨hlenle, hnd, hsc, hrdwf, hnone⟩ := hwf
  obtain ⟨h4, hkeys, hperm, hpkeys, hsum, hinit⟩ := hrdwf rd hrd
  have hrolesnd : (rd.roles.map Prod.fst).Nodup := by
    rw [hkeys]
    exact hnd
  have hptsnd : (rd.points.map Prod.fst).Nodup := by
    rw [hpkeys]
    exact hrolesnd
  have hscsub : ∀ (pts2 : List (String × Int)),
      pts2.map Prod.fst = rd.points.map Prod.fst →
      ∀ pr ∈ pts2, (dget pr.1 room.scores).isSome := by
    intro pts2 hk pr hpr
    rw [dget_isSome_iff_mem, hsc, ← hkeys, ← hpkeys, ← hk]
    exact List.mem_map.mpr ⟨pr, hpr, rfl⟩
  by_cases hgc : g_role = "Chor"
  · have hb : (g_role == "Chor") = true := beq_iff_eq.mpr hgc
    have htrans : (if (g_role == "Chor") = true then (rd.points, (none : Option Err))
        else transferPoints rd.points rd.roles m) = (rd.points, none) := by
      rw [if_pos hb]
    obtain ⟨h1, h2, h3⟩ := addScoresLoop_ok rd.points room.scores (hscsub rd.points rfl) hptsnd
    have hadd : addScoresLoop room.scores rd.points
        = ((addScoresLoop room.scores rd.points).1, none) := by
      rw [← h1]
    refine ⟨rd.points, (addScoresLoop room.scores rd.points).1,
      guessRoom_eq room rd m g g_role hrd hm hg rd.points htrans _ hadd, rfl, rfl, h2, h3,
      fun _ => rfl, fun hne => absurd hgc hne⟩
  · have hb : (g_role == "Chor") = false := by
      simp [hgc]
    have hsndnd : (rd.roles.map Prod.snd).Nodup :=
      (List.Perm.nodup_iff hperm).mpr (by decide)
    have hchormem : "Chor" ∈ rd.roles.map Prod.snd := hperm.mem_iff.mpr (by decide)
    obtain ⟨c, hfil⟩ := filter_chor_singleton rd.roles hsndnd hchormem
    have hcmem : (c, "Chor") ∈ rd.roles := by
      have hmem : (c, "Chor") ∈ rd.roles.filter (fun pr => pr.2 == "Chor") := by
        rw [hfil]
        exact List.mem_singleton_self _
      exact List.mem_of_mem_filter hmem
    have hcget : dget c rd.roles = some "Chor" := dget_eq_of_mem hrolesnd hcmem
    have hmc : m ≠ c := by
      intro he
      rw [he, hcget] at hm
      exact absurd hm (by decide)
    have hmmem : m ∈ rd.points.map Prod.fst := by
      rw [hpkeys, ← dget_isSome_iff_mem, hm]
      rfl
    have hcmemk : c ∈ rd.points.map Prod.fst := by
      rw [hpkeys, ← dget_isSome_iff_mem, hcget]
      rfl
    obtain ⟨stolen, hstolen⟩ :=
      Option.isSome_iff_exists.mp ((dget_isSome_iff_mem _ _).mpr hmmem)
    obtain ⟨cp, hcp⟩ :=
      Option.isSome_iff_exists.mp ((dget_isSome_iff_mem _ _).mpr hcmemk)
    have htrans : (if (g_role == "Chor") = true then (rd.points, (none : Option Err))
        else transferPoints rd.points rd.roles m)
        = (dset (dset rd.points m 0) c (cp + stolen), none) := by
      rw [hb]
      simp only [Bool.false_eq_true, if_false]
      exact transferPoints_ok rd.points rd.roles m c stolen cp hfil hstolen hmc hcp
    have hk1 : (dset rd.points m 0).map Prod.fst = rd.points.map Prod.fst :=
      dset_keys_of_mem _ _ _ hmmem
    have hk2 : (dset (dset rd.points m 0) c (cp + stolen)).map Prod.fst
        = rd.points.map Prod.fst := by
      rw [dset_keys_of_mem _ _ _ (by rw [hk1]; exact hcmemk), hk1]
    have hcp1 : dget c (dset rd.points m 0) = some cp := by
      rw [dget_dset_ne _ _ _ _ (Ne.symm hmc)]
      exact hcp
    have hsum2 : ((dset (dset rd.points m 0) c (cp + stolen)).map Prod.snd).sum
        = (rd.points.map Prod.snd).sum := by
      rw [sum_dset _ c (cp + stolen) cp hcp1, sum_dset _ m 0 stolen hstolen]
      ring
    obtain ⟨h1, h2, h3⟩ := addScoresLoop_ok (dset (dset rd.points m 0) c (cp + stolen))
      room.scores (hscsub _ hk2) (by rw [hk2]; exact hptsnd)
    have hadd : addScoresLoop room.scores (dset (dset rd.points m 0) c (cp + stolen))
        = ((addScoresLoop room.scores (dset (dset rd.points m 0) c (cp + stolen))).1, none) := by
      rw [← h1]
    refine ⟨dset (dset rd.points m 0) c (cp + stolen), _,
      guessRoom_eq room rd m g g_role hrd hm hg _ htrans _ hadd, hk2, hsum2, h2, h3,
      fun he => absurd he hgc,
      fun _ => ⟨c, stolen, cp, hcget, Ne.symm hmc, hstolen, hcp, rfl⟩⟩

theorem guessRoom_wf (room : Room) (m g : String) (hwf : RoomWF room) :
    RoomWF (guessRoom room m g).1 := by
  cases hre : room.round with
  | none =>
    rw [guessRoom_noRound room hre]
    exact hwf
  | some rd =>
    by_cases hm : dget m rd.roles = some "Mantri"
    · cases hge : dget g rd.roles with
      | none =>
        rw [guessRoom_keyError room rd hre m g hm hge]
        exact hwf
      | some g_role =>
        obtain ⟨pts2, sc2, heq, hpk, hpsum, hsck, hscval, hcor, hinc⟩ :=
          guessRoom_ok room rd m g g_role hwf hre hm hge
        rw [heq]
        obtain ⟨hlenle, hnd, hsc, hrdwf, hnone⟩ := hwf
        obtain ⟨h4, hkeys, hperm, hpkeys, hsum, hinit⟩ := hrdwf rd hre
        refine ⟨hlenle, hnd, ?_, ?_, ?_⟩
        · show sc2.map Prod.fst = room.players.map Player.id
          rw [hsck, hsc]
        · intro rd2 h2
          simp only [Option.some.injEq] at h2
          rw [← h2]
          simp only [completedRound]
          refine ⟨h4, hkeys, hperm, ?_, ?_, ?_⟩
          · show pts2.map Prod.fst = rd.roles.map Prod.fst
            rw [hpk, hpkeys]
          · show (pts2.map Prod.snd).sum = 2300
            rw [hpsum, hsum]
          · intro hfalse
            simp at hfalse
        · intro hcontr
          simp at hcontr
    · rw [guessRoom_notMantri room rd hre m g hm]
      exact hwf

theorem reachable_wf {room : Room} (h : Reachable room) : RoomWF room := by
  induction h with
  | created player_id name => exact createRoom_wf player_id name
  | joined player_id name shuffled hr hfresh hperm ih =>
      exact joinRoom_wf _ player_id name shuffled ih hfresh hperm
  | guessed mantri_id guessed_id hr ih => exact guessRoom_wf _ mantri_id guessed_id ih

/-! Additional infrastructure for the claims. -/

theorem appended_ids_nodup (room : Room) (player_id name : String)
    (hnd : (room.players.map Player.id).Nodup)
    (hfresh : player_id ∉ room.players.map Player.id) :
    ((room.players ++ [Player.mk player_id name]).map Player.id).Nodup := by
  rw [show (room.players ++ [Player.mk player_id name]).map Player.id
      = room.players.map Player.id ++ [player_id] by simp]
  simp only [List.nodup_append, List.nodup_cons, List.not_mem_nil, not_false_iff,
    List.nodup_nil, true_and, and_true]
  constructor
  · exact hnd
  · intro a ha
    simp only [List.mem_singleton]
    intro he
    exact hfresh (he ▸ ha)

theorem guessRoom_ok_inv (room : Room) (rd : Round) (m g : String) (room2 : Room) (res : Bool)
    (hwf : RoomWF room) (hrd : room.round = some rd)
    (hcall : guessRoom room m g = (room2, Except.ok res)) :
    ∃ g_role pts2 sc2,
      dget m rd.roles = some "Mantri" ∧ dget g rd.roles = some g_role ∧
      res = (g_role == "Chor") ∧
      room2 = { room with round := some (completedRound rd pts2 res), scores := sc2 } ∧
      pts2.map Prod.fst = rd.points.map Prod.fst ∧
      (pts2.map Prod.snd).sum = (rd.points.map Prod.snd).sum ∧
      sc2.map Prod.fst = room.scores.map Prod.fst ∧
      (∀ k old, dget k room.scores = some old →
        dget k sc2 = some (old + (dget k pts2).getD 0)) ∧
      (g_role = "Chor" → pts2 = rd.points) ∧
      (g_role ≠ "Chor" → ∃ c stolen cp,
        dget c rd.roles = some "Chor" ∧ c ≠ m ∧
        dget m rd.points = some stolen ∧ dget c rd.points = some cp ∧
        pts2 = dset (dset rd.points m 0) c (cp + stolen)) := by
  by_cases hm : dget m rd.roles = some "Mantri"
  · cases hge : dget g rd.roles with
    | none =>
      rw [guessRoom_keyError room rd hrd m g hm hge] at hcall
      simp at hcall
    | some g_role =>
      obtain ⟨pts2, sc2, heq, hpk, hpsum, hsck, hscval, hcor, hinc⟩ :=
        guessRoom_ok room rd m g g_role hwf hrd hm hge
      rw [heq] at hcall
      simp only [Prod.mk.injEq, Except.ok.injEq] at hcall
      obtain ⟨hroom2, hres⟩ := hcall
      refine ⟨g_role, pts2, sc2, hm, rfl, hres.symm, ?_, hpk, hpsum, hsck, hscval, hcor, hinc⟩
      rw [← hroom2, hres]
  · rw [guessRoom_notMantri room rd hrd m g hm] at hcall
    simp at hcall

theorem guessRoom_error_frame (room : Room) (m g : String) (hwf : RoomWF room) (e : Err)
    (herr : (guessRoom room m g).2 = Except.error e) :
    (guessRoom room m g).1 = room := by
  cases hre : room.round with
  | none => rw [guessRoom_noRound room hre]
  | some rd =>
    by_cases hm : dget m rd.roles = some "Mantri"
    · cases hge : dget g rd.roles with
      | none => rw [guessRoom_keyError room rd hre m g hm hge]
      | some g_role =>
        obtain ⟨pts2, sc2, heq, _⟩ := guessRoom_ok room rd m g g_role hwf hre hm hge
        rw [heq] at herr
        simp at herr
    · rw [guessRoom_notMantri room rd hre m g hm]

theorem joinRoom_error_frame (room : Room) (player_id name : String) (shuffled : List String)
    (hwf : RoomWF room) (hfresh : player_id ∉ room.players.map Player.id)
    (hperm : shuffled.Perm baseRoles) (e : Err)
    (herr : (joinRoom room player_id name shuffled).2 = Except.error e) :
    (joinRoom room player_id name shuffled).1 = room := by
  by_cases hfull : MAX_PLAYERS ≤ room.players.length
  · rw [joinRoom_full room hfull]
  · by_cases h3 : room.players.length = 3
    · have hnd1 := appended_ids_nodup room player_id name hwf.2.1 hfresh
      rw [joinRoom_fill room player_id name shuffled h3 hnd1 hperm] at herr
      simp at herr
    · have hlt1 : room.players.length + 1 < 4 := by
        have hfull4 : ¬ (4 ≤ room.players.length) := hfull
        omega
      rw [joinRoom_belowCapacity room player_id name shuffled hlt1] at herr
      simp at herr

theorem sampleRoom0_reachable : Reachable sampleRoom0 :=
  Reachable.created "p1" "A"

theorem sampleRoom1_reachable : Reachable sampleRoom1 :=
  Reachable.joined "p2" "B" baseRoles sampleRoom0_reachable (by decide) (List.Perm.refl _)

theorem sampleRoom2_reachable : Reachable sampleRoom2 :=
  Reachable.joined "p3" "C" baseRoles sampleRoom1_reachable (by decide) (List.Perm.refl _)

theorem sampleRoom4_reachable : Reachable sampleRoom4 :=
  Reachable.joined "p4" "D" baseRoles sampleRoom2_reachable (by decide) (List.Perm.refl _)

theorem sampleRoomDone_reachable : Reachable sampleRoomDone :=
  Reachable.guessed "p2" "p1" sampleRoom4_reachable

theorem mapM_scores_ok (players : List Player) (scores : List (String × Int))
    (h : ∀ p ∈ players, (dget p.id scores).isSome) :
    players.mapM (fun p =>
        match dget p.id scores with
        | none => (Except.error Err.keyError : Except Err (String × Int))
        | some s => Except.ok (p.name, s))
      = Except.ok (players.map (fun p => (p.name, (dget p.id scores).getD 0))) := by
  induction players with
  | nil => rfl
  | cons p rest ih =>
    obtain ⟨s, hs⟩ := Option.isSome_iff_exists.mp (h p (List.mem_cons_self _ _))
    rw [List.mapM_cons]
    simp only [hs, ih (fun q hq => h q (List.mem_cons_of_mem _ hq)), List.map_cons]
    rfl

theorem insertDesc_perm (a : String × Int) (l : List (String × Int)) :
    (insertDesc a l).Perm (a :: l) := by
  induction l with
  | nil => exact List.Perm.refl _
  | cons b t ih =>
    by_cases h : b.2 ≤ a.2
    · simp only [insertDesc, if_pos h]
      exact List.Perm.refl _
    · simp only [insertDesc, if_neg h]
      exact List.Perm.trans (List.Perm.cons _ ih) (List.Perm.swap _ _ _)

theorem sortDesc_perm (l : List (String × Int)) : (sortDesc l).Perm l := by
  induction l with
  | nil => exact List.Perm.refl _
  | cons a t ih =>
    simp only [sortDesc]
    exact List.Perm.trans (insertDesc_perm a (sortDesc t)) (List.Perm.cons a ih)

theorem insertDesc_pairwise (a : String × Int) :
    ∀ (l : List (String × Int)), l.Pairwise (fun x y => y.2 ≤ x.2) →
    (insertDesc a l).Pairwise (fun x y => y.2 ≤ x.2)
  | [], _ => by simp [insertDesc]
  | b :: t, hp => by
    obtain ⟨hb, ht⟩ := List.pairwise_cons.mp hp
    by_cases h : b.2 ≤ a.2
    · simp only [insertDesc, if_pos h]
      refine List.Pairwise.cons ?_ hp
      intro y hy
      rcases List.mem_cons.mp hy with rfl | hyt
      · exact h
      · exact le_trans (hb y hyt) h
    · simp only [insertDesc, if_neg h]
      refine List.Pairwise.cons ?_ (insertDesc_pairwise a t ht)
      intro y hy
      rcases List.mem_cons.mp ((insertDesc_perm a t).mem_iff.mp hy) with rfl | hyt
      · exact le_of_not_le h
      · exact hb y hyt

theorem sortDesc_pairwise (l : List (String × Int)) :
    (sortDesc l).Pairwise (fun x y => y.2 ≤ x.2) := by
  induction l with
  | nil => simp [sortDesc]
  | cons a t ih =>
    simp only [sortDesc]
    exact insertDesc_pairwise a (sortDesc t) ih

theorem insertDesc_filter (a : String × Int) (s : Int) :
    ∀ (l : List (String × Int)),
      (insertDesc a l).filter (fun e => e.2 == s)
        = ((a :: l).filter (fun e => e.2 == s))
  | [] => rfl
  | b :: t => by
    by_cases h : b.2 ≤ a.2
    · simp only [insertDesc, if_pos h]
    · have hrec := insertDesc_filter a s t
      by_cases pa : a.2 = s
      · have pb : ¬ (b.2 = s) := by
          intro hbs
          exact h (le_of_eq (by rw [hbs, pa]))
        simp only [insertDesc, if_neg h, List.filter_cons]
        simp [pa, pb, hrec]
      · simp only [insertDesc, if_neg h, List.filter_cons]
        simp only [hrec, List.filter_cons]
        simp [pa]

theorem sortDesc_filter (s : Int) : ∀ (l : List (String × Int)),
    (sortDesc l).filter (fun e => e.2 == s) = l.filter (fun e => e.2 == s)
  | [] => rfl
  | a :: t => by
    simp only [sortDesc]
    rw [insertDesc_filter a s (sortDesc t)]
    simp only [List.filter_cons]
    rw [sortDesc_filter s t]

/-- C1: the claim fails on the code: guess_chor contains no AlreadyResolved
guard (the completed flag is written but never read). On the concrete registry
whose room r1 holds an already completed round, a second guess_chor call
returns ok false instead of failing, and every cumulative score is incremented
a second time. -/
theorem C1_second_resolve_succeeds_and_rescores :
    sampleRoomDone.round.map Round.completed = some true ∧
    (guess_chor sampleRegistry "r1" "p2" "p1").2 = Except.ok false ∧
    sampleRoomDone.scores = [("p1", 1000), ("p2", 0), ("p3", 800), ("p4", 500)] ∧
    (dget "r1" (guess_chor sampleRegistry "r1" "p2" "p1").1).map Room.scores
      = some [("p1", 2000), ("p2", 0), ("p3", 1600), ("p4", 1000)] :=
  ⟨rfl, rfl, rfl, rfl⟩

/-- C2 counterexample: with the Mantri p2 calling and a guessed id zz that is
absent from the role mapping, guess_chor raises KeyError on the bracket roles
lookup instead of evaluating the guess to false as the claim states. -/
theorem C2_unknown_guess_raises :
    dget "p2" sampleRound4.roles = some "Mantri" ∧
    dget "zz" sampleRound4.roles = none ∧
    guess_chor sampleRegistry4 "r1" "p2" "zz"
      = (sampleRegistry4, Except.error Err.keyError) :=
  ⟨rfl, rfl, rfl⟩

/-- C2 (amended): with the caller holding Mantri, a self guess is not
specially rejected: correct evaluates to false and the zero/transfer logic
applies; but a guessed id absent from the role mapping makes the operation
raise KeyError, leaving the room unchanged, rather than evaluating the guess
to false. -/
theorem C2_self_guess_transfers_unknown_guess_raises (room : Room) (rd : Round) (m : String)
    (hre : Reachable room) (hrd : room.round = some rd)
    (hm : dget m rd.roles = some "Mantri") :
    (∃ room2, guessRoom room m m = (room2, Except.ok false) ∧
      ∃ rd2, room2.round = some rd2 ∧ rd2.completed = true ∧ rd2.guess = some false ∧
        dget m rd2.points = some 0) ∧
    (∀ g, dget g rd.roles = none →
      guessRoom room m g = (room, Except.error Err.keyError)) := by
  have hwf := reachable_wf hre
  constructor
  · obtain ⟨pts2, sc2, heq, hpk, hpsum, hsck, hscval, hcor, hinc⟩ :=
      guessRoom_ok room rd m m "Mantri" hwf hrd hm hm
    have hbeq : (("Mantri" : String) == "Chor") = false := by decide
    rw [hbeq] at heq
    obtain ⟨c, stolen, cp, hcget, hcm, hstolen, hcp, hpts2⟩ := hinc (by decide)
    refine ⟨{ room with round := some (completedRound rd pts2 false), scores := sc2 }, heq,
      completedRound rd pts2 false, rfl, rfl, rfl, ?_⟩
    show dget m pts2 = some 0
    rw [hpts2, dget_dset_ne _ _ _ _ (Ne.symm hcm)]
    exact dget_dset_self _ _ _
  · intro g hg
    exact guessRoom_keyError room rd hrd m g hm hg

theorem C2_self_guess_transfers_unknown_guess_raises_witness :
    Reachable sampleRoom4 ∧ sampleRoom4.round = some sampleRound4 ∧
    dget "p2" sampleRound4.roles = some "Mantri" ∧
    (guessRoom sampleRoom4 "p2" "p2").2 = Except.ok false ∧
    guessRoom sampleRoom4 "p2" "zz" = (sampleRoom4, Except.error Err.keyError) := by
  have happ := C2_self_guess_transfers_unknown_guess_raises sampleRoom4 sampleRound4 "p2"
    sampleRoom4_reachable rfl rfl
  refine ⟨sampleRoom4_reachable, rfl, rfl, ?_, happ.2 "zz" rfl⟩
  obtain ⟨room2, heq, _⟩ := happ.1
  rw [heq]

/-- C3 counterexample: with the empty registry every room id is unknown, yet
my_role answers an absent role without failing, and the result endpoint fails
with the No round error, which is a different error than RoomNotFound. -/
theorem C3_my_role_result_not_roomNotFound :
    my_role [] "r1" "p1" = none ∧
    resultEndpoint [] "r1" = Except.error Err.noRound ∧
    Err.noRound ≠ Err.roomNotFound :=
  ⟨rfl, rfl, by decide⟩

/-- C3 (amended): for a room id unknown to the registry, list_players and
leaderboard fail with RoomNotFound, but my_role returns an absent role without
failing and the result endpoint fails with the distinct No round error. -/
theorem C3_read_accessors_unknown_room (rooms : Registry) (room_id player_id : String)
    (h : dget room_id rooms = none) :
    list_players rooms room_id = Except.error Err.roomNotFound ∧
    leaderboard rooms room_id = Except.error Err.roomNotFound ∧
    my_role rooms room_id player_id = none ∧
    resultEndpoint rooms room_id = Except.error Err.noRound := by
  unfold list_players leaderboard my_role resultEndpoint
  rw [h]
  exact ⟨rfl, rfl, rfl, rfl⟩

theorem C3_read_accessors_unknown_room_witness :
    dget "r1" ([] : Registry) = none ∧
    list_players [] "r1" = Except.error Err.roomNotFound ∧
    leaderboard [] "r1" = Except.error Err.roomNotFound ∧
    my_role [] "r1" "p1" = none ∧
    resultEndpoint [] "r1" = Except.error Err.noRound := by
  obtain ⟨h1, h2, h3, h4⟩ := C3_read_accessors_unknown_room [] "r1" "p1" rfl
  exact ⟨rfl, h1, h2, h3, h4⟩

/-- C4: first resolution of an active round by the Mantri: on an incorrect
guess exactly the Mantri round points change (from 800 to 0) and exactly the
Chor round points increase by that same amount (from 0 to 800) with every
other entry unchanged; on a correct guess all round points are unchanged; in
both cases each roster player gets its round points added to its cumulative
score. -/
theorem C4_first_resolve_transfer (room : Room) (rd : Round) (m g : String)
    (hre : Reachable room) (hrd : room.round = some rd)
    (hfresh : rd.completed = false)
    (hm : dget m rd.roles = some "Mantri")
    (room2 : Room) (res : Bool)
    (hcall : guessRoom room m g = (room2, Except.ok res)) :
    ∃ rd2, room2.round = some rd2 ∧
      (res = false → ∃ c,
        c ≠ m ∧ dget c rd.roles = some "Chor" ∧
        dget m rd.points = some 800 ∧ dget m rd2.points = some 0 ∧
        dget c rd.points = some 0 ∧ dget c rd2.points = some 800 ∧
        (∀ k, k ≠ m → k ≠ c → dget k rd2.points = dget k rd.points)) ∧
      (res = true → rd2.points = rd.points) ∧
      (∀ p ∈ room.players, ∃ old pts,
        dget p.id room.scores = some old ∧
        dget p.id rd2.points = some pts ∧
        dget p.id room2.scores = some (old + pts)) := by
  have hwf := reachable_wf hre
  obtain ⟨g_role, pts2, sc2, hm2, hg, hres, hroom2, hpk, hpsum, hsck, hscval, hcor, hinc⟩ :=
    guessRoom_ok_inv room rd m g room2 res hwf hrd hcall
  obtain ⟨hlenle, hnd, hsc, hrdwf, hnone⟩ := hwf
  obtain ⟨h4, hkeys, hperm, hpkeys, hsum, hinit⟩ := hrdwf rd hrd
  refine ⟨completedRound rd pts2 res, by rw [hroom2], ?_, ?_, ?_⟩
  · intro hresf
    have hgc : g_role ≠ "Chor" := by
      intro he
      rw [hres, he] at hresf
      simp at hresf
    obtain ⟨c, stolen, cp, hcget, hcm, hstolen, hcp, hpts2⟩ := hinc hgc
    have hm800 : dget m rd.points = some 800 := by
      have hiv := hinit hfresh (m, "Mantri") (dget_mem hm)
      rw [hiv]
      rfl
    have hc0 : dget c rd.points = some 0 := by
      have hiv := hinit hfresh (c, "Chor") (dget_mem hcget)
      rw [hiv]
      rfl
    have hstolen800 : stolen = 800 := by
      rw [hm800] at hstolen
      injection hstolen with hinj
      exact hinj.symm
    have hcp0 : cp = 0 := by
      rw [hc0] at hcp
      injection hcp with hinj
      exact hinj.symm
    refine ⟨c, hcm, hcget, hm800, ?_, hc0, ?_, ?_⟩
    · show dget m pts2 = some 0
      rw [hpts2, dget_dset_ne _ _ _ _ (Ne.symm hcm), dget_dset_self]
    · show dget c pts2 = some 800
      rw [hpts2, dget_dset_self, hcp0, hstolen800]
      norm_num
    · intro k hkm hkc
      show dget k pts2 = dget k rd.points
      rw [hpts2, dget_dset_ne _ _ _ _ hkc, dget_dset_ne _ _ _ _ hkm]
  · intro hrest
    have hgc : g_role = "Chor" := by
      rw [hrest] at hres
      exact beq_iff_eq.mp hres.symm
    show pts2 = rd.points
    exact hcor hgc
  · intro p hp
    have hmem : p.id ∈ room.scores.map Prod.fst := by
      rw [hsc]
      exact List.mem_map.mpr ⟨p, hp, rfl⟩
    obtain ⟨old, hold⟩ := Option.isSome_iff_exists.mp ((dget_isSome_iff_mem _ _).mpr hmem)
    have hmem2 : p.id ∈ pts2.map Prod.fst := by
      rw [hpk, hpkeys, hkeys, ← hsc]
      exact hmem
    obtain ⟨pts, hptsv⟩ := Option.isSome_iff_exists.mp ((dget_isSome_iff_mem _ _).mpr hmem2)
    refine ⟨old, pts, hold, hptsv, ?_⟩
    have hval := hscval p.id old hold
    rw [hroom2]
    show dget p.id sc2 = some (old + pts)
    rw [hval, hptsv]
    rfl

theorem C4_first_resolve_transfer_witness :
    Reachable sampleRoom4 ∧ sampleRoom4.round = some sampleRound4 ∧
    sampleRound4.completed = false ∧ dget "p2" sampleRound4.roles = some "Mantri" ∧
    (∃ rd2, sampleRoomDone.round = some rd2 ∧
      ∃ c, c ≠ "p2" ∧ dget c sampleRound4.roles = some "Chor" ∧
        dget "p2" rd2.points = some 0 ∧ dget c rd2.points = some 800) := by
  have happ := C4_first_resolve_transfer sampleRoom4 sampleRound4 "p2" "p1"
    sampleRoom4_reachable rfl rfl rfl sampleRoomDone false rfl
  obtain ⟨rd2, hround, hfalse, _, _⟩ := happ
  obtain ⟨c, hcm, hcrole, _, hm0, _, hc800, _⟩ := hfalse rfl
  exact ⟨sampleRoom4_reachable, rfl, rfl, rfl, rd2, hround, c, hcm, hcrole, hm0, hc800⟩

/-- C5: in every reachable room with an active round the round points sum to
2300, and a successful guess resolution leaves the sum unchanged. -/
theorem C5_points_sum_invariant (room : Room) (rd : Round)
    (hre : Reachable room) (hrd : room.round = some rd) :
    (rd.points.map Prod.snd).sum = 2300 ∧
    (∀ m g room2 res, guessRoom room m g = (room2, Except.ok res) →
      ∃ rd2, room2.round = some rd2 ∧
        (rd2.points.map Prod.snd).sum = (rd.points.map Prod.snd).sum) := by
  have hwf := reachable_wf hre
  refine ⟨((reachable_wf hre).2.2.2.1 rd hrd).2.2.2.2.1, ?_⟩
  intro m g room2 res hcall
  obtain ⟨g_role, pts2, sc2, hm2, hg, hres, hroom2, hpk, hpsum, hsck, hscval, hcor, hinc⟩ :=
    guessRoom_ok_inv room rd m g room2 res hwf hrd hcall
  exact ⟨completedRound rd pts2 res, by rw [hroom2], hpsum⟩

theorem C5_points_sum_invariant_witness :
    Reachable sampleRoom4 ∧ sampleRoom4.round = some sampleRound4 ∧
    (sampleRound4.points.map Prod.snd).sum = 2300 ∧
    (∃ rd2, sampleRoomDone.round = some rd2 ∧
      (rd2.points.map Prod.snd).sum = (sampleRound4.points.map Prod.snd).sum) := by
  have happ := C5_points_sum_invariant sampleRoom4 sampleRound4 sampleRoom4_reachable rfl
  exact ⟨sampleRoom4_reachable, rfl, happ.1, happ.2 "p2" "p1" sampleRoomDone false rfl⟩

/-- C6: in every reachable room the round exists exactly when the roster is
full (none until the fourth join); a join on a roster of four fails RoomFull
and leaves the room unchanged; the join that brings the roster from 3 to 4
succeeds and installs a round; and a guess on a roundless room fails without
creating a round. Together these show a round is created exactly once. -/
theorem C6_round_creation (room : Room) (hre : Reachable room) :
    (room.round = none ↔ room.players.length < 4) ∧
    (room.players.length = 4 →
      ∀ player_id name shuffled,
        joinRoom room player_id name shuffled = (room, Except.error Err.roomFull)) ∧
    (room.players.length = 3 →
      ∀ player_id name shuffled,
        player_id ∉ room.players.map Player.id → shuffled.Perm baseRoles →
        (joinRoom room player_id name shuffled).2 = Except.ok player_id ∧
        ∃ rd, (joinRoom room player_id name shuffled).1.round = some rd) ∧
    (room.round = none →
      ∀ m g, guessRoom room m g = (room, Except.error Err.noActiveRound)) := by
  obtain ⟨hlenle, hnd, hsc, hrdwf, hnone⟩ := reachable_wf hre
  refine ⟨⟨hnone, ?_⟩, ?_, ?_, ?_⟩
  · intro hlt
    cases hrond : room.round with
    | none => rfl
    | some rd =>
      have hlen4 := (hrdwf rd hrond).1
      omega
  · intro h4 player_id name shuffled
    exact joinRoom_full room (Nat.le_of_eq h4.symm) player_id name shuffled
  · intro h3 player_id name shuffled hfreshp hperm
    have hnd1 := appended_ids_nodup room player_id name hnd hfreshp
    rw [joinRoom_fill room player_id name shuffled h3 hnd1 hperm]
    exact ⟨rfl, assignedRound (room.players ++ [Player.mk player_id name]) shuffled, rfl⟩
  · intro hrond m g
    exact guessRoom_noRound room hrond m g

theorem C6_round_creation_witness :
    Reachable sampleRoom4 ∧ Reachable sampleRoom2 ∧
    (sampleRoom4.round = none ↔ sampleRoom4.players.length < 4) ∧
    joinRoom sampleRoom4 "p5" "E" baseRoles = (sampleRoom4, Except.error Err.roomFull) ∧
    (sampleRoom2.round = none ↔ sampleRoom2.players.length < 4) ∧
    (joinRoom sampleRoom2 "p4" "D" baseRoles).2 = Except.ok "p4" ∧
    (∃ rd, (joinRoom sampleRoom2 "p4" "D" baseRoles).1.round = some rd) := by
  have h4 := C6_round_creation sampleRoom4 sampleRoom4_reachable
  have h2 := C6_round_creation sampleRoom2 sampleRoom2_reachable
  have hfill := h2.2.2.1 rfl "p4" "D" baseRoles (by decide) (List.Perm.refl _)
  exact ⟨sampleRoom4_reachable, sampleRoom2_reachable, h4.1,
    h4.2.1 rfl "p5" "E" baseRoles, h2.1, hfill.1, hfill.2⟩

/-- C7: in every reachable room with a round, the role mapping keys are
exactly the roster ids (all distinct), the role values are a permutation of
the four roles (role bijection), and the point keys equal the role keys;
because this holds of every reachable room, every operation preserves it. -/
theorem C7_round_bijection (room : Room) (rd : Round)
    (hre : Reachable room) (hrd : room.round = some rd) :
    rd.roles.map Prod.fst = room.players.map Player.id ∧
    (rd.roles.map Prod.fst).Nodup ∧
    (rd.roles.map Prod.snd).Perm baseRoles ∧
    rd.points.map Prod.fst = rd.roles.map Prod.fst := by
  obtain ⟨_, hnd, _, hrdwf, _⟩ := reachable_wf hre
  obtain ⟨_, hkeys, hperm, hpkeys, _, _⟩ := hrdwf rd hrd
  refine ⟨hkeys, ?_, hperm, hpkeys⟩
  rw [hkeys]
  exact hnd

theorem C7_round_bijection_witness :
    Reachable sampleRoom4 ∧ sampleRoom4.round = some sampleRound4 ∧
    sampleRound4.roles.map Prod.fst = sampleRoom4.players.map Player.id ∧
    (sampleRound4.roles.map Prod.fst).Nodup ∧
    (sampleRound4.roles.map Prod.snd).Perm baseRoles ∧
    sampleRound4.points.map Prod.fst = sampleRound4.roles.map Prod.fst := by
  have happ := C7_round_bijection sampleRoom4 sampleRound4 sampleRoom4_reachable rfl
  exact ⟨sampleRoom4_reachable, rfl, happ.1, happ.2.1, happ.2.2.1, happ.2.2.2⟩

/-- C8: for every room in the registry and every score assignment defined on
the roster, leaderboard succeeds with one (name, score) entry per roster
player (a permutation of the roster projection), sorted by score descending,
and for each score value the equal-score entries appear in roster insertion
order (stable tie-break). -/
theorem C8_leaderboard_sorted_stable (rooms : Registry) (room_id : String) (room : Room)
    (hroom : dget room_id rooms = some room)
    (hsc : ∀ p ∈ room.players, (dget p.id room.scores).isSome) :
    ∃ board, leaderboard rooms room_id = Except.ok board ∧
      board.Perm (room.players.map (fun p => (p.name, (dget p.id room.scores).getD 0))) ∧
      board.Pairwise (fun a b => b.2 ≤ a.2) ∧
      (∀ s : Int, board.filter (fun e => e.2 == s)
        = (room.players.map (fun p => (p.name, (dget p.id room.scores).getD 0))).filter
            (fun e => e.2 == s)) := by
  have hmapm := mapM_scores_ok room.players room.scores hsc
  refine ⟨sortDesc (room.players.map (fun p => (p.name, (dget p.id room.scores).getD 0))),
    ?_, sortDesc_perm _, sortDesc_pairwise _, fun s => sortDesc_filter s _⟩
  simp only [leaderboard, hroom, hmapm]

theorem C8_leaderboard_sorted_stable_witness :
    dget "r1" sampleRegistry = some sampleRoomDone ∧
    (∃ board, leaderboard sampleRegistry "r1" = Except.ok board ∧
      board.Pairwise (fun a b => b.2 ≤ a.2)) := by
  obtain ⟨board, hok, _, hpw, _⟩ := C8_leaderboard_sorted_stable sampleRegistry "r1"
    sampleRoomDone rfl (by decide)
  exact ⟨rfl, board, hok, hpw⟩

/-- C9: for every registry whose rooms are reachable, a failing join_room
(with a fresh generated player id and a shuffled permutation of the role
list, as the runtime guarantees) and a failing guess_chor leave the registry
exactly as it was: every failure is detected before any mutation. -/
theorem C9_failed_ops_preserve_state (rooms : Registry) (room_id : String)
    (hre : ∀ room, dget room_id rooms = some room → Reachable room) :
    (∀ player_id name shuffled e,
      (∀ room, dget room_id rooms = some room →
        player_id ∉ room.players.map Player.id) →
      shuffled.Perm baseRoles →
      (join_room rooms room_id player_id name shuffled).2 = Except.error e →
      (join_room rooms room_id player_id name shuffled).1 = rooms) ∧
    (∀ m g e,
      (guess_chor rooms room_id m g).2 = Except.error e →
      (guess_chor rooms room_id m g).1 = rooms) := by
  cases hr : dget room_id rooms with
  | none =>
    constructor
    · intro pid nm sh e _ _ _
      simp [join_room, hr]
    · intro m g e _
      simp [guess_chor, hr]
  | some room =>
    have hwf := reachable_wf (hre room hr)
    constructor
    · intro pid nm sh e hfr hperm herr
      simp only [join_room, hr] at herr ⊢
      have h1 := joinRoom_error_frame room pid nm sh hwf (hfr room rfl) hperm e herr
      rw [h1, dset_eq_self rooms room_id room hr]
    · intro m g e herr
      simp only [guess_chor, hr] at herr ⊢
      have h1 := guessRoom_error_frame room m g hwf e herr
      rw [h1, dset_eq_self rooms room_id room hr]

theorem C9_failed_ops_preserve_state_witness :
    (join_room sampleRegistry "r1" "p9" "Z" baseRoles).2 = Except.error Err.roomFull ∧
    (join_room sampleRegistry "r1" "p9" "Z" baseRoles).1 = sampleRegistry ∧
    (guess_chor sampleRegistry "r1" "p1" "p3").2 = Except.error Err.notMantri ∧
    (guess_chor sampleRegistry "r1" "p1" "p3").1 = sampleRegistry := by
  have hre : ∀ room, dget "r1" sampleRegistry = some room → Reachable room := by
    intro room h
    have h2 : some sampleRoomDone = some room := h
    injection h2 with he
    rw [← he]
    exact sampleRoomDone_reachable
  have hfr : ∀ room, dget "r1" sampleRegistry = some room →
      "p9" ∉ room.players.map Player.id := by
    intro room h
    have h2 : some sampleRoomDone = some room := h
    injection h2 with he
    rw [← he]
    decide
  have happ := C9_failed_ops_preserve_state sampleRegistry "r1" hre
  exact ⟨rfl, happ.1 "p9" "Z" baseRoles Err.roomFull hfr (List.Perm.refl _) rfl,
    rfl, happ.2 "p1" "p3" Err.notMantri rfl⟩

/-- C10: a guess never modifies the roster, never changes the role mapping,
and never changes the key sets of the round points or of the cumulative
scores; only point values, score values and the completed and guess flags can
change, and a guess on a roundless room changes nothing at all. -/
theorem C10_guess_frame (room : Room) (m g : String) (hre : Reachable room) :
    (guessRoom room m g).1.players = room.players ∧
    (guessRoom room m g).1.scores.map Prod.fst = room.scores.map Prod.fst ∧
    (∀ rd, room.round = some rd →
      ∃ rd2, (guessRoom room m g).1.round = some rd2 ∧
        rd2.roles = rd.roles ∧
        rd2.points.map Prod.fst = rd.points.map Prod.fst) ∧
    (room.round = none → (guessRoom room m g).1 = room) := by
  have hwf := reachable_wf hre
  cases hres : (guessRoom room m g).2 with
  | error e =>
    have h1 := guessRoom_error_frame room m g hwf e hres
    rw [h1]
    exact ⟨rfl, rfl, fun rd hrd => ⟨rd, hrd, rfl, rfl⟩, fun _ => rfl⟩
  | ok res =>
    have hcall : guessRoom room m g = ((guessRoom room m g).1, Except.ok res) := by
      rw [← hres]
    cases hrond : room.round with
    | none =>
      rw [guessRoom_noRound room hrond m g] at hres
      simp at hres
    | some rd =>
      obtain ⟨g_role, pts2, sc2, hm2, hg, hres2, hroom2, hpk, hpsum, hsck, hscval, hcor, hinc⟩ :=
        guessRoom_ok_inv room rd m g (guessRoom room m g).1 res hwf hrond hcall
      refine ⟨by rw [hroom2], ?_, ?_, ?_⟩
      · rw [hroom2]
        exact hsck
      · intro rd' hrd'
        injection hrd' with he
        refine ⟨completedRound rd pts2 res, by rw [hroom2], ?_, ?_⟩
        · rw [← he]
          rfl
        · rw [← he]
          exact hpk
      · intro hcontr
        exact absurd hcontr (by simp)

theorem C10_guess_frame_witness :
    Reachable sampleRoom4 ∧
    (guessRoom sampleRoom4 "p2" "p1").1.players = sampleRoom4.players ∧
    (guessRoom sampleRoom4 "p2" "p1").1.scores.map Prod.fst
      = sampleRoom4.scores.map Prod.fst ∧
    (∃ rd2, (guessRoom sampleRoom4 "p2" "p1").1.round = some rd2 ∧
      rd2.roles = sampleRound4.roles ∧
      rd2.points.map Prod.fst = sampleRound4.points.map Prod.fst) := by
  have happ := C10_guess_frame sampleRoom4 "p2" "p1" sampleRoom4_reachable
  exact ⟨sampleRoom4_reachable, happ.1, happ.2.1, happ.2.2.1 sampleRound4 rfl⟩
